import Mathlib

/-!
Verification development for the automatic function calling chat loop
(`ollama_chat_automatic_function_calling.py`).

The embedding models the dynamic Python values the loop manipulates:
messages (dicts / pydantic objects / opaque objects), tool-call requests,
tool descriptors and callables, the keyword-argument dict of the driver,
and the chat backend.  Python exceptions raised by tool callables are
modelled with `Except String`; the stringified return value of a tool is
the `Except.ok` payload.  A backend is modelled per its contract in the
spec: an invocable that, given the named parameters of one chat call,
returns a response object carrying a message.  Attributes that are present
but bound to `None` on opaque objects are outside the model (an `Option`
field models present/absent).
-/

/-- JSON-style values used for tool-call argument mappings. -/
inductive JVal where
  | jnum (n : Int)
  | jstr (s : String)
  | jbool (b : Bool)
  | jnull
deriving DecidableEq, Repr

/-- An argument mapping: parameter name to value, in order. -/
abbrev ArgMap := List (String × JVal)

/-- The `arguments` carried by a tool call: either a structured mapping or a
serialized textual form that still needs decoding. -/
inductive ToolArgs where
  | map (m : ArgMap)
  | text (s : String)
deriving DecidableEq, Repr

/-- The `function` substructure of a tool-call request, which the source reads
either as a dict (`function.get`) or as an object (`getattr`). -/
inductive FuncRepr where
  | asDict (name : Option String) (arguments : Option ToolArgs)
  | asObj (name : Option String) (arguments : Option ToolArgs)
deriving DecidableEq, Repr

/-- A raw tool-call request as delivered by the backend: an object with a
`function` attribute, a dict with or without a `"function"` key, or a bare
value with neither. -/
inductive ToolCall where
  | objCall (function : FuncRepr)
  | dictCall (function : Option FuncRepr)
  | bare
deriving DecidableEq, Repr

/-- A canonical transcript entry (a message dict).  Absent keys are `none`;
an absent `tool_calls` key is the empty list (the dump path excludes unset
fields, so empty and absent coincide in the model). -/
structure Msg where
  role : Option String := none
  content : Option String := none
  tool_name : Option String := none
  tool_calls : List ToolCall := []
deriving DecidableEq, Repr

/-- A raw response message before normalization: a pydantic-style object with
`model_dump` (whose attributes mirror the dump), a plain dict (which has no
attributes, so `getattr` misses), or an opaque object with optional `role`,
`content` and `tool_calls` attributes. -/
inductive RawMsg where
  | dumpable (m : Msg)
  | dict (m : Msg)
  | opaq (role : Option String) (content : Option String) (tool_calls : List ToolCall)
deriving DecidableEq, Repr

/-- A backend response object, exposing its assistant message. -/
structure Response where
  message : RawMsg
deriving DecidableEq, Repr

/-- How a tool callable invokes: Python exceptions become `Except.error` with
the exception's message, success carries `str(result)`. -/
abbrev ToolBody := ArgMap → Except String String

/-- The `__wrapped__` attribute of a registered callable: absent, bound to a
callable, or bound to a non-callable value. -/
inductive Wrapped where
  | noneW
  | callableW (g : ToolBody)
  | nonCallableW

/-- The invocable part of a tool object: its wrapper information and its own
call behaviour. -/
structure ToolFn where
  wrapped : Wrapped
  call : ToolBody

/-- The value found under a dict descriptor's `"function"` key: absent,
explicitly `None`, a dict whose `"name"` lookup gives `name`, or a truthy
non-dict value. -/
inductive FnField where
  | fabsent
  | fnone
  | fdict (name : Option String)
  | fother
deriving DecidableEq, Repr

/-- A tool value as it appears in the `tools` list or as a registry entry:
the `None` value, a dict descriptor, or an object with optional `name` and
`__name__` attributes that is callable exactly when `fn` is present. -/
inductive Tool where
  | pynone
  | dictDesc (function : FnField)
  | obj (name : Option String) (dunderName : Option String) (fn : Option ToolFn)

/-- The tool registry: a name-to-tool dict, as an ordered association list. -/
abbrev Registry := List (String × Tool)

/-- A value carried in the driver's keyword arguments.  Reserved keys hold
the variants the source reads back out; arbitrary extra values are tagged
opaquely.  Non-conforming reserved values (say, a non-integer `max_turns`,
which would fault inside `range`) are outside the model. -/
inductive KwVal where
  | vstr (s : String)
  | vint (n : Int)
  | vnone
  | vtools (ts : List Tool)
  | vmap (m : Registry)
  | vother (tag : Nat)

/-- The keyword-argument dict of one driver invocation. -/
abbrev Kwargs := List (String × KwVal)

/-- The record of one backend invocation: exactly the named parameters the
loop passes to `client_fn` on that turn. -/
structure BackendCall where
  model : KwVal
  tools : Option (List Tool)
  messages : List Msg
  options : Option Kwargs
  extra : Kwargs

/-- A chat backend meeting its contract: named parameters in, response out. -/
abbrev Backend := BackendCall → Response

/-- The `client_fn` argument as a Python value: a callable or not. -/
inductive ClientVal where
  | fn (client : Backend)
  | notCallable

/-- First-match lookup in an association list (dict `get`). -/
def dictGet {α : Type} : List (String × α) → String → Option α
  | [], _ => none
  | (k0, v0) :: rest, k => if k0 = k then some v0 else dictGet rest k

/-- Dict assignment `m[k] = v`: replace the first binding of `k`, else append. -/
def dictInsert {α : Type} : List (String × α) → String → α → List (String × α)
  | [], k, v => [(k, v)]
  | (k0, v0) :: rest, k, v =>
      if k0 = k then (k, v) :: rest else (k0, v0) :: dictInsert rest k v

/-- Python `a or b` on optional strings: falsy (`None` or empty) falls through. -/
def pyOrOpt (a b : Option String) : Option String :=
  match a with
  | some s => if s = "" then b else some s
  | none => b

/-- Python `a or b` where `b` is a plain string. -/
def pyOrStr (a : Option String) (b : String) : String :=
  match a with
  | some s => if s = "" then b else s
  | none => b

/-- Python `str` rendering of an optional name inside an f-string: `None`
renders as the text `"None"`. -/
def pyStrOptName : Option String → String
  | some s => s
  | none => "None"

/-- `_to_msg_dict`: dump path, dict pass-through, or default synthesis. -/
def toMsgDict : RawMsg → Msg
  | RawMsg.dumpable m => m
  | RawMsg.dict m => m
  | RawMsg.opaq r c _ =>
      { role := some (r.getD "assistant"), content := some (c.getD ""),
        tool_name := none, tool_calls := [] }

/-- `getattr(assistant_msg, "tool_calls", None) or []`: attribute read on the
raw message; dicts have no such attribute, falsy values become `[]`. -/
def msgToolCallsAttr : RawMsg → List ToolCall
  | RawMsg.dumpable m => m.tool_calls
  | RawMsg.dict _ => []
  | RawMsg.opaq _ _ tcs => tcs

/-- `arguments or \x7b\x7d`: absent or falsy arguments default to the empty
mapping. -/
def argOrEmpty : Option ToolArgs → ToolArgs
  | none => ToolArgs.map []
  | some (ToolArgs.map []) => ToolArgs.map []
  | some (ToolArgs.text "") => ToolArgs.map []
  | some a => a

/-- Read `name` and `arguments` out of a `function` substructure, by key when
it is a dict, by attribute otherwise. -/
def funcParts : FuncRepr → Option String × ToolArgs
  | FuncRepr.asDict n a => (n, argOrEmpty a)
  | FuncRepr.asObj n a => (n, argOrEmpty a)

/-- `_extract_tool_call_parts`: locate the `function` substructure and read
`(name, arguments)` from it; a missing substructure yields `(None, \x7b\x7d)`. -/
def extractToolCallParts : ToolCall → Option String × ToolArgs
  | ToolCall.objCall f => funcParts f
  | ToolCall.dictCall (some f) => funcParts f
  | ToolCall.dictCall none => (none, ToolArgs.map [])
  | ToolCall.bare => (none, ToolArgs.map [])

/-- `_infer_tool_name`: `None` for the `None` descriptor; `function.name` for
dict descriptors; `name` or `__name__` (first truthy) for objects. -/
def inferToolName : Tool → Option String
  | Tool.pynone => none
  | Tool.dictDesc f =>
      match f with
      | FnField.fdict n => n
      | _ => none
  | Tool.obj n d _ => pyOrOpt n d

/-- Registry construction from the `tools` list: register each descriptor
under its inferred name when that name is truthy. -/
def buildToolMap (tools : List Tool) : Registry :=
  tools.foldl
    (fun m t =>
      match inferToolName t with
      | some n => if n = "" then m else dictInsert m n t
      | none => m)
    []

/-- `tool_map` selection: an explicit mapping is used as-is; otherwise a
truthy `tools` list is inferred from; otherwise there is no registry. -/
def effectiveToolMap (tool_map : Option Registry) (tools : Option (List Tool)) :
    Option Registry :=
  match tool_map with
  | some m => some m
  | none =>
      match tools with
      | some ts => if ts.isEmpty then none else some (buildToolMap ts)
      | none => none

/-- `tool_map.get(tool_name) if tool_map else None`: a missing or falsy
(empty) registry and a `None` name all miss. -/
def registryGet (tool_map : Option Registry) (name : Option String) : Option Tool :=
  match tool_map with
  | none => none
  | some m =>
      if m.isEmpty then none
      else
        match name with
        | none => none
        | some n => dictGet m n

/-- `callable(tool_fn)`: only an object carrying an invocable part passes. -/
def callableOf : Option Tool → Option ToolFn
  | some (Tool.obj _ _ (some f)) => some f
  | _ => none

/-- `_resolve_callable`: prefer a callable `__wrapped__` over the entry. -/
def resolveCallable (f : ToolFn) : ToolBody :=
  match f.wrapped with
  | Wrapped.callableW g => g
  | _ => f.call

/-- Whitespace skipping for the textual-argument decoder. -/
def skipWs : List Char → List Char
  | c :: cs => if c = ' ' ∨ c = '\t' ∨ c = '\n' ∨ c = '\r' then skipWs cs else c :: cs
  | [] => []

/-- Read the body of a quoted string up to its closing quote (no escapes). -/
def takeStr : List Char → Option (String × List Char)
  | [] => none
  | c :: cs =>
      if c = '"' then some ("", cs)
      else
        match takeStr cs with
        | some (s, rest) => some (String.singleton c ++ s, rest)
        | none => none

/-- Split a leading run of decimal digits from the input. -/
def takeDigits : List Char → List Char × List Char
  | [] => ([], [])
  | c :: cs =>
      if c.isDigit then
        let p := takeDigits cs
        (c :: p.1, p.2)
      else ([], c :: cs)

/-- Numeric value of a digit run. -/
def digitsToNat (ds : List Char) : Nat :=
  ds.foldl (fun acc c => acc * 10 + (c.toNat - 48)) 0

/-- Parse one JSON scalar value: string, integer, boolean or null. -/
def parseJVal : List Char → Option (JVal × List Char)
  | [] => none
  | '"' :: cs =>
      match takeStr cs with
      | some (s, rest) => some (JVal.jstr s, rest)
      | none => none
  | '-' :: cs =>
      match takeDigits cs with
      | ([], _) => none
      | (ds, rest) => some (JVal.jnum (-(digitsToNat ds : Int)), rest)
  | 't' :: 'r' :: 'u' :: 'e' :: rest => some (JVal.jbool true, rest)
  | 'f' :: 'a' :: 'l' :: 's' :: 'e' :: rest => some (JVal.jbool false, rest)
  | 'n' :: 'u' :: 'l' :: 'l' :: rest => some (JVal.jnull, rest)
  | c :: cs =>
      if c.isDigit then
        match takeDigits (c :: cs) with
        | ([], _) => none
        | (ds, rest) => some (JVal.jnum (digitsToNat ds : Int), rest)
      else none

/-- Parse one `"key": value` member of a JSON object. -/
def parsePair (input : List Char) : Option (String × JVal × List Char) :=
  match input with
  | '"' :: cs =>
      match takeStr cs with
      | some (k, rest) =>
          match skipWs rest with
          | ':' :: cs2 =>
              match parseJVal (skipWs cs2) with
              | some (v, rest2) => some (k, v, rest2)
              | none => none
          | _ => none
      | none => none
  | _ => none

/-- Parse the members of a JSON object after its opening brace, consuming the
closing brace; `fuel` bounds the recursion by the input length. -/
def parseMembers : Nat → List Char → Option (ArgMap × List Char)
  | 0, _ => none
  | fuel + 1, input =>
      match parsePair input with
      | some (k, v, rest) =>
          match skipWs rest with
          | ',' :: more =>
              match parseMembers fuel (skipWs more) with
              | some (m, tail) => some ((k, v) :: m, tail)
              | none => none
          | '\x7d' :: tail => some ([(k, v)], tail)
          | _ => none
      | none => none

/-- Modelled from the spec: the textual-argument decoder (the source defers
to the `json` standard library, which is not part of this repository).  Per
the spec it attempts to decode a textual value as a structured mapping and
reports failure otherwise; the model accepts a flat JSON object of scalar
values and rejects everything else. -/
def jsonLoadsObj (s : String) : Option ArgMap :=
  match skipWs s.toList with
  | '\x7b' :: rest =>
      match skipWs rest with
      | '\x7d' :: tail => if (skipWs tail).isEmpty then some [] else none
      | body =>
          match parseMembers body.length body with
          | some (m, tail) => if (skipWs tail).isEmpty then some m else none
          | none => none
  | _ => none

/-- Argument decoding before invocation: structured mappings pass through;
textual values are decoded, a decode failure silently becoming the empty
mapping. -/
def decodeArgs : ToolArgs → ArgMap
  | ToolArgs.map m => m
  | ToolArgs.text s =>
      match jsonLoadsObj s with
      | some m => m
      | none => []

/-- The transcript entry appended on a registry miss: the content renders the
name Python-style (`None` when absent), the `tool_name` falls back to
`unknown_tool` on a falsy name. -/
def toolNotFoundEntry (name : Option String) : Msg :=
  { role := some "tool",
    content := some ("Tool '" ++ pyStrOptName name ++ "' not found."),
    tool_name := some (pyOrStr name "unknown_tool"),
    tool_calls := [] }

/-- Dispatch one extracted tool call against the registry entry found for it:
record the miss when the entry is not callable, otherwise decode the
arguments, invoke the resolved callable and record its outcome (a raised
failure is caught and stringified with the tool name). -/
def dispatchTool (tool_fn : Option Tool) (parts : Option String × ToolArgs) : Msg :=
  match callableOf tool_fn with
  | none => toolNotFoundEntry parts.1
  | some f =>
      match resolveCallable f (decodeArgs parts.2) with
      | Except.ok r =>
          { role := some "tool", content := some r,
            tool_name := parts.1, tool_calls := [] }
      | Except.error e =>
          { role := some "tool",
            content := some ("Tool '" ++ pyStrOptName parts.1 ++
              "' execution failed: " ++ e),
            tool_name := parts.1, tool_calls := [] }

/-- Process one requested tool call into the transcript entry it appends. -/
def processToolCall (tool_map : Option Registry) (tc : ToolCall) : Msg :=
  dispatchTool (registryGet tool_map (extractToolCallParts tc).1)
    (extractToolCallParts tc)

/-- The per-turn tool loop: append one entry per requested call, in order. -/
def runToolCalls (tool_map : Option Registry) (msgs : List Msg) :
    List ToolCall → List Msg
  | [] => msgs
  | tc :: rest => runToolCalls tool_map (msgs ++ [processToolCall tool_map tc]) rest

/-- The fixed per-invocation context of the turn loop. -/
structure Ctx where
  client : Backend
  model : KwVal
  tools : Option (List Tool)
  tool_map : Option Registry
  options : Option Kwargs
  chat_kwargs : Kwargs

/-- One full turn loop: on each iteration invoke the backend (recording the
invocation), append the normalized assistant message, return on a turn with
no tool calls, otherwise process every requested call and continue.  Fuel is
`range(max_turns)`. -/
def chatLoop (ctx : Ctx) : Nat → List Msg → Option Response → List BackendCall →
    Option Response × List Msg × List BackendCall
  | 0, msgs, last, trace => (last, msgs, trace)
  | fuel + 1, msgs, _, trace =>
      let call : BackendCall :=
        ⟨ctx.model, ctx.tools, msgs, ctx.options, ctx.chat_kwargs⟩
      let response := ctx.client call
      let msgs2 := msgs ++ [toMsgDict response.message]
      let tcs := msgToolCallsAttr response.message
      if tcs.isEmpty then (some response, msgs2, trace ++ [call])
      else
        chatLoop ctx fuel (runToolCalls ctx.tool_map msgs2 tcs) (some response)
          (trace ++ [call])

/-- `kwargs.get("model")`, with an explicit `None` value treated as absent
(the source tests `model is None`). -/
def getModelKw (kwargs : Kwargs) : Option KwVal :=
  match dictGet kwargs "model" with
  | some KwVal.vnone => none
  | r => r

/-- `kwargs.get("max_turns", 20)`. -/
def getMaxTurns (kwargs : Kwargs) : Int :=
  match dictGet kwargs "max_turns" with
  | some (KwVal.vint n) => n
  | _ => 20

/-- `kwargs.get("tools")`. -/
def getToolsKw (kwargs : Kwargs) : Option (List Tool) :=
  match dictGet kwargs "tools" with
  | some (KwVal.vtools ts) => some ts
  | _ => none

/-- `kwargs.get("tool_map")`. -/
def getToolMapKw (kwargs : Kwargs) : Option Registry :=
  match dictGet kwargs "tool_map" with
  | some (KwVal.vmap m) => some m
  | _ => none

/-- The reserved parameter names consumed by the driver. -/
def reservedNames : List String :=
  ["model", "tools", "messages", "options", "max_turns", "tool_map"]

/-- The extra keyword parameters forwarded to the backend on every turn. -/
def chatKwargsOf (kwargs : Kwargs) : Kwargs :=
  kwargs.filter (fun kv => decide (kv.1 ∉ reservedNames))

/-- Build the loop context from the driver's arguments. -/
def mkCtx (client : Backend) (model : KwVal) (options : Option Kwargs)
    (kwargs : Kwargs) : Ctx :=
  ⟨client, model, getToolsKw kwargs,
    effectiveToolMap (getToolMapKw kwargs) (getToolsKw kwargs), options,
    chatKwargsOf kwargs⟩

/-- What one driver invocation yields: either the raised configuration error
or the returned `(last_response, messages)` pair, together with the record of
the backend invocations performed. -/
structure RunOutput where
  result : Except String (Option Response × List Msg)
  trace : List BackendCall

/-- Whether a run raised. -/
def RunOutput.isErr (out : RunOutput) : Bool :=
  match out.result with
  | Except.error _ => true
  | Except.ok _ => false

/-- Package a finished loop as the driver's return value. -/
def loopOutput (ctx : Ctx) (fuel : Nat) (messages : List Msg) : RunOutput :=
  ⟨Except.ok ((chatLoop ctx fuel messages none []).1,
      (chatLoop ctx fuel messages none []).2.1),
    (chatLoop ctx fuel messages none []).2.2⟩

/-- `ollama_automatic_function_calling`: fail fast on a missing model or a
non-invocable client, then run the turn loop over `range(max_turns)`. -/
def ollama_automatic_function_calling (client_fn : ClientVal)
    (messages : List Msg) (options : Option Kwargs) (kwargs : Kwargs) :
    RunOutput :=
  match getModelKw kwargs with
  | none => ⟨Except.error "model must be specified", []⟩
  | some model =>
      match client_fn with
      | ClientVal.notCallable => ⟨Except.error "client_fn must be a callable", []⟩
      | ClientVal.fn client =>
          loopOutput (mkCtx client model options kwargs)
            (getMaxTurns kwargs).toNat messages

/-- Flatten a list of (assistant entry, tool entry) pairs into the strictly
alternating transcript segment they form. -/
def interleavePairs : List (Msg × Msg) → List Msg
  | [] => []
  | p :: rest => p.1 :: p.2 :: interleavePairs rest

/-- A concrete tool callable that always raises. -/
def failingToolFn : ToolFn := ⟨Wrapped.noneW, fun _ => Except.error "kaput"⟩

/-- A concrete registered tool named `boom` whose invocation raises. -/
def boomTool : Tool := Tool.obj (some "boom") none (some failingToolFn)

/-- A concrete tool-call request for the tool named `boom`. -/
def boomCall : ToolCall := ToolCall.objCall (FuncRepr.asObj (some "boom") none)

/-- A concrete tool-call request whose name resolves to nothing. -/
def missCall : ToolCall :=
  ToolCall.dictCall (some (FuncRepr.asDict (some "nope") none))

/-- A concrete assistant message without tool calls. -/
def plainAsstMsg : Msg := { role := some "assistant", content := some "hi" }

/-- A concrete assistant message requesting exactly the unresolvable call. -/
def missAsstMsg : Msg :=
  { role := some "assistant", content := some "", tool_calls := [missCall] }

/-- A concrete backend that always answers with a tool-call-free message. -/
def plainClient : Backend := fun _ => ⟨RawMsg.dumpable plainAsstMsg⟩

/-- A concrete backend that always requests the unresolvable tool call. -/
def missClient : Backend := fun _ => ⟨RawMsg.dumpable missAsstMsg⟩

/-- Unfolding equation for one iteration of the turn loop. -/
theorem chatLoop_succ (ctx : Ctx) (fuel : Nat) (msgs : List Msg)
    (last : Option Response) (trace : List BackendCall) :
    chatLoop ctx (fuel + 1) msgs last trace =
      (if (msgToolCallsAttr ((ctx.client ⟨ctx.model, ctx.tools, msgs, ctx.options, ctx.chat_kwargs⟩).message)).isEmpty then
        (some (ctx.client ⟨ctx.model, ctx.tools, msgs, ctx.options, ctx.chat_kwargs⟩),
          msgs ++ [toMsgDict ((ctx.client ⟨ctx.model, ctx.tools, msgs, ctx.options, ctx.chat_kwargs⟩).message)],
          trace ++ [⟨ctx.model, ctx.tools, msgs, ctx.options, ctx.chat_kwargs⟩])
      else
        chatLoop ctx fuel
          (runToolCalls ctx.tool_map
            (msgs ++ [toMsgDict ((ctx.client ⟨ctx.model, ctx.tools, msgs, ctx.options, ctx.chat_kwargs⟩).message)])
            (msgToolCallsAttr ((ctx.client ⟨ctx.model, ctx.tools, msgs, ctx.options, ctx.chat_kwargs⟩).message)))
          (some (ctx.client ⟨ctx.model, ctx.tools, msgs, ctx.options, ctx.chat_kwargs⟩))
          (trace ++ [⟨ctx.model, ctx.tools, msgs, ctx.options, ctx.chat_kwargs⟩])) :=
  rfl

/-- The per-turn tool loop appends exactly one entry per requested call. -/
theorem runToolCalls_eq_map (tool_map : Option Registry) :
    ∀ (tcs : List ToolCall) (msgs : List Msg),
      runToolCalls tool_map msgs tcs = msgs ++ tcs.map (processToolCall tool_map) := by
  intro tcs
  induction tcs with
  | nil => intro msgs; simp [runToolCalls]
  | cons tc rest ih => intro msgs; simp [runToolCalls, ih]

/-- A registry lookup with an absent name always misses. -/
theorem registryGet_name_none (tool_map : Option Registry) :
    registryGet tool_map none = none := by
  cases tool_map with
  | none => rfl
  | some m => simp [registryGet]

/-- An unresolved call produces exactly the not-found transcript entry. -/
theorem processToolCall_notFound (tool_map : Option Registry) (tc : ToolCall)
    (h : callableOf (registryGet tool_map (extractToolCallParts tc).1) = none) :
    processToolCall tool_map tc = toolNotFoundEntry (extractToolCallParts tc).1 := by
  unfold processToolCall dispatchTool
  rw [h]

/-- Every entry produced by tool-call processing is a tool-role entry that
carries a `tool_name`. -/
theorem processToolCall_fields (tool_map : Option Registry) (tc : ToolCall) :
    (processToolCall tool_map tc).role = some "tool" ∧
      (processToolCall tool_map tc).tool_name.isSome = true := by
  unfold processToolCall dispatchTool
  cases h : callableOf (registryGet tool_map (extractToolCallParts tc).1) with
  | none => simp [toolNotFoundEntry]
  | some f =>
      cases hp : (extractToolCallParts tc).1 with
      | none =>
          rw [hp, registryGet_name_none] at h
          simp [callableOf] at h
      | some n =>
          cases hr : resolveCallable f (decodeArgs (extractToolCallParts tc).2) <;>
            simp [hr]

/-- The loop performs at most `fuel` further backend invocations. -/
theorem chatLoop_trace_length_le (ctx : Ctx) :
    ∀ (fuel : Nat) (msgs : List Msg) (last : Option Response)
      (trace : List BackendCall),
      (chatLoop ctx fuel msgs last trace).2.2.length ≤ trace.length + fuel := by
  intro fuel
  induction fuel with
  | zero => intro msgs last trace; simp [chatLoop]
  | succ k ih =>
      intro msgs last trace
      rw [chatLoop_succ]
      by_cases h : (msgToolCallsAttr ((ctx.client ⟨ctx.model, ctx.tools, msgs, ctx.options, ctx.chat_kwargs⟩).message)).isEmpty
      · rw [if_pos h]; simp
      · rw [if_neg h]
        have := ih
          (runToolCalls ctx.tool_map
            (msgs ++ [toMsgDict ((ctx.client ⟨ctx.model, ctx.tools, msgs, ctx.options, ctx.chat_kwargs⟩).message)])
            (msgToolCallsAttr ((ctx.client ⟨ctx.model, ctx.tools, msgs, ctx.options, ctx.chat_kwargs⟩).message)))
          (some (ctx.client ⟨ctx.model, ctx.tools, msgs, ctx.options, ctx.chat_kwargs⟩))
          (trace ++ [⟨ctx.model, ctx.tools, msgs, ctx.options, ctx.chat_kwargs⟩])
        simp at this
        omega

/-- Every backend invocation of the loop forwards the fixed extra keyword
parameters of the context. -/
theorem chatLoop_extra (ctx : Ctx) :
    ∀ (fuel : Nat) (msgs : List Msg) (last : Option Response)
      (trace : List BackendCall),
      (∀ c ∈ trace, c.extra = ctx.chat_kwargs) →
      ∀ c ∈ (chatLoop ctx fuel msgs last trace).2.2, c.extra = ctx.chat_kwargs := by
  intro fuel
  induction fuel with
  | zero => intro msgs last trace hbase; simpa [chatLoop] using hbase
  | succ k ih =>
      intro msgs last trace hbase
      have hext : ∀ c ∈ trace ++ [(⟨ctx.model, ctx.tools, msgs, ctx.options, ctx.chat_kwargs⟩ : BackendCall)],
          c.extra = ctx.chat_kwargs := by
        intro c hc
        rcases List.mem_append.mp hc with hc | hc
        · exact hbase c hc
        · rcases List.mem_singleton.mp hc with rfl; rfl
      rw [chatLoop_succ]
      by_cases h : (msgToolCallsAttr ((ctx.client ⟨ctx.model, ctx.tools, msgs, ctx.options, ctx.chat_kwargs⟩).message)).isEmpty
      · rw [if_pos h]; exact hext
      · rw [if_neg h]
        exact ih _ _ _ hext

/-- Every entry the loop adds past the supplied transcript is either a
normalized backend message or the result of processing one tool call. -/
theorem chatLoop_appended (ctx : Ctx) :
    ∀ (fuel : Nat) (msgs : List Msg) (last : Option Response)
      (trace : List BackendCall),
      ∃ new, (chatLoop ctx fuel msgs last trace).2.1 = msgs ++ new ∧
        ∀ m ∈ new, (∃ c, m = toMsgDict ((ctx.client c).message)) ∨
          ∃ tc, m = processToolCall ctx.tool_map tc := by
  intro fuel
  induction fuel with
  | zero =>
      intro msgs last trace
      exact ⟨[], by simp [chatLoop], by simp⟩
  | succ k ih =>
      intro msgs last trace
      rw [chatLoop_succ]
      by_cases h : (msgToolCallsAttr ((ctx.client ⟨ctx.model, ctx.tools, msgs, ctx.options, ctx.chat_kwargs⟩).message)).isEmpty
      · rw [if_pos h]
        refine ⟨[toMsgDict ((ctx.client ⟨ctx.model, ctx.tools, msgs, ctx.options, ctx.chat_kwargs⟩).message)], by simp, ?_⟩
        intro m hm
        rcases List.mem_singleton.mp hm with rfl
        exact Or.inl ⟨_, rfl⟩
      · rw [if_neg h]
        obtain ⟨new, hnew, hcls⟩ := ih
          (runToolCalls ctx.tool_map
            (msgs ++ [toMsgDict ((ctx.client ⟨ctx.model, ctx.tools, msgs, ctx.options, ctx.chat_kwargs⟩).message)])
            (msgToolCallsAttr ((ctx.client ⟨ctx.model, ctx.tools, msgs, ctx.options, ctx.chat_kwargs⟩).message)))
          (some (ctx.client ⟨ctx.model, ctx.tools, msgs, ctx.options, ctx.chat_kwargs⟩))
          (trace ++ [⟨ctx.model, ctx.tools, msgs, ctx.options, ctx.chat_kwargs⟩])
        rw [runToolCalls_eq_map] at hnew
        refine ⟨[toMsgDict ((ctx.client ⟨ctx.model, ctx.tools, msgs, ctx.options, ctx.chat_kwargs⟩).message)] ++
          (msgToolCallsAttr ((ctx.client ⟨ctx.model, ctx.tools, msgs, ctx.options, ctx.chat_kwargs⟩).message)).map (processToolCall ctx.tool_map) ++ new, ?_, ?_⟩
        · rw [runToolCalls_eq_map, hnew]; simp
        · intro m hm
          rcases List.mem_append.mp hm with hm | hm
          · rcases List.mem_append.mp hm with hm | hm
            · rcases List.mem_singleton.mp hm with rfl
              exact Or.inl ⟨_, rfl⟩
            · rcases List.mem_map.mp hm with ⟨tc, _, rfl⟩
              exact Or.inr ⟨tc, rfl⟩
          · exact hcls m hm

/-- When every backend response is an assistant message requesting exactly one
unresolvable tool call, the loop consumes its whole budget, invoking the
backend once per unit of fuel, and appends one (assistant, tool-not-found)
pair per iteration, in alternation. -/
theorem chatLoop_allMiss (ctx : Ctx)
    (H : ∀ c : BackendCall,
      (toMsgDict ((ctx.client c).message)).role = some "assistant" ∧
      ∃ tc, msgToolCallsAttr ((ctx.client c).message) = [tc] ∧
        callableOf (registryGet ctx.tool_map (extractToolCallParts tc).1) = none) :
    ∀ (fuel : Nat) (msgs : List Msg) (last : Option Response)
      (trace : List BackendCall),
      (chatLoop ctx fuel msgs last trace).2.2.length = trace.length + fuel ∧
      ∃ pairs : List (Msg × Msg),
        (chatLoop ctx fuel msgs last trace).2.1 = msgs ++ interleavePairs pairs ∧
        pairs.length = fuel ∧
        ∀ p ∈ pairs, p.1.role = some "assistant" ∧
          ∃ nm, p.2 = toolNotFoundEntry nm := by
  intro fuel
  induction fuel with
  | zero =>
      intro msgs last trace
      exact ⟨by simp [chatLoop], [], by simp [chatLoop, interleavePairs], rfl, by simp⟩
  | succ k ih =>
      intro msgs last trace
      obtain ⟨hrole, tc, htc, hmiss⟩ :=
        H ⟨ctx.model, ctx.tools, msgs, ctx.options, ctx.chat_kwargs⟩
      rw [chatLoop_succ, htc]
      rw [show (([tc] : List ToolCall).isEmpty = false) from rfl]
      simp only [Bool.false_eq_true, if_false]
      have hrun : runToolCalls ctx.tool_map
          (msgs ++ [toMsgDict ((ctx.client ⟨ctx.model, ctx.tools, msgs, ctx.options, ctx.chat_kwargs⟩).message)]) [tc] =
          msgs ++ [toMsgDict ((ctx.client ⟨ctx.model, ctx.tools, msgs, ctx.options, ctx.chat_kwargs⟩).message),
            toolNotFoundEntry (extractToolCallParts tc).1] := by
        rw [runToolCalls_eq_map]
        simp [processToolCall_notFound ctx.tool_map tc hmiss]
      rw [hrun]
      obtain ⟨hlen, pairs, hmsgs, hplen, hpcls⟩ := ih
        (msgs ++ [toMsgDict ((ctx.client ⟨ctx.model, ctx.tools, msgs, ctx.options, ctx.chat_kwargs⟩).message),
          toolNotFoundEntry (extractToolCallParts tc).1])
        (some (ctx.client ⟨ctx.model, ctx.tools, msgs, ctx.options, ctx.chat_kwargs⟩))
        (trace ++ [⟨ctx.model, ctx.tools, msgs, ctx.options, ctx.chat_kwargs⟩])
      constructor
      · rw [hlen]; simp; omega
      · refine ⟨(toMsgDict ((ctx.client ⟨ctx.model, ctx.tools, msgs, ctx.options, ctx.chat_kwargs⟩).message),
          toolNotFoundEntry (extractToolCallParts tc).1) :: pairs, ?_, ?_, ?_⟩
        · rw [hmsgs, interleavePairs]; simp
        · simp [hplen]
        · intro p hp
          rcases List.mem_cons.mp hp with rfl | hp
          · exact ⟨hrole, (extractToolCallParts tc).1, rfl⟩
          · exact hpcls p hp

/-- When the model keyword is present, the driver runs the turn loop over the
context built from its arguments. -/
theorem run_fn_eq (client : Backend) (msgs : List Msg) (options : Option Kwargs)
    (kwargs : Kwargs) (mv : KwVal) (hm : getModelKw kwargs = some mv) :
    ollama_automatic_function_calling (ClientVal.fn client) msgs options kwargs =
      loopOutput (mkCtx client mv options kwargs) (getMaxTurns kwargs).toNat msgs := by
  unfold ollama_automatic_function_calling
  rw [hm]

/-- Claim C1: for every resolved tool callable and argument mapping, a raised
invocation failure is caught and recorded as a tool entry whose content names
the tool and the failure; a successful invocation is recorded as the same
shaped entry with the stringified return value; and the per-turn tool loop
appends exactly one entry per requested call, so neither outcome aborts the
processing of the remaining calls. -/
theorem claim_C1_execution_isolation (tm : Option Registry) (tc : ToolCall)
    (name : String) (args : ToolArgs) (f : ToolFn)
    (hparts : extractToolCallParts tc = (some name, args))
    (hf : callableOf (registryGet tm (some name)) = some f) :
    (∀ e, resolveCallable f (decodeArgs args) = Except.error e →
      processToolCall tm tc =
        { role := some "tool",
          content := some ("Tool '" ++ name ++ "' execution failed: " ++ e),
          tool_name := some name, tool_calls := [] }) ∧
    (∀ r, resolveCallable f (decodeArgs args) = Except.ok r →
      processToolCall tm tc =
        { role := some "tool", content := some r,
          tool_name := some name, tool_calls := [] }) ∧
    ∀ (msgs : List Msg) (tcs : List ToolCall),
      runToolCalls tm msgs tcs = msgs ++ tcs.map (processToolCall tm) := by
  refine ⟨?_, ?_, fun msgs tcs => runToolCalls_eq_map tm tcs msgs⟩
  · intro e he
    unfold processToolCall dispatchTool
    rw [hparts]
    simp only [hf, he, pyStrOptName]
  · intro r hr
    unfold processToolCall dispatchTool
    rw [hparts]
    simp only [hf, hr]

/-- Claim C1 witness: the concrete `boom` tool raises and its failure is
recorded in the transcript entry. -/
theorem claim_C1_execution_isolation_witness :
    processToolCall (some [("boom", boomTool)]) boomCall =
      { role := some "tool",
        content := some "Tool 'boom' execution failed: kaput",
        tool_name := some "boom", tool_calls := [] } :=
  (claim_C1_execution_isolation (some [("boom", boomTool)]) boomCall "boom"
    (ToolArgs.map []) failingToolFn rfl rfl).1 "kaput" rfl

/-- Claim C5 counterexample: for a requested call whose name is absent, the
appended content renders the name the way Python renders `None`, not as
`unknown_tool` as the claim states. -/
theorem claim_C5_lookup_miss_counterexample :
    (processToolCall none ToolCall.bare).content = some "Tool 'None' not found." ∧
    ¬ (processToolCall none ToolCall.bare).content =
        some "Tool 'unknown_tool' not found." := by
  exact ⟨rfl, by decide⟩

/-- Claim C5 (amended): for every requested call whose name resolves to no
callable — including when the registry was never constructed or the name is
absent — the driver appends the not-found tool entry, whose content renders
the name Python-style (the text `None` when the name is absent) and whose
`tool_name` is the name or `unknown_tool` when the name is falsy, and the
per-turn loop continues with the remaining calls; lookup miss never raises. -/
theorem claim_C5_lookup_miss (tm : Option Registry) (tc : ToolCall)
    (hmiss : callableOf (registryGet tm (extractToolCallParts tc).1) = none) :
    processToolCall tm tc = toolNotFoundEntry (extractToolCallParts tc).1 ∧
    ∀ (msgs : List Msg) (tcs : List ToolCall),
      runToolCalls tm msgs tcs = msgs ++ tcs.map (processToolCall tm) :=
  ⟨processToolCall_notFound tm tc hmiss,
    fun msgs tcs => runToolCalls_eq_map tm tcs msgs⟩

/-- Claim C5 witness: the bare call with no registry yields the not-found
entry with `tool_name = unknown_tool`. -/
theorem claim_C5_lookup_miss_witness :
    processToolCall none ToolCall.bare = toolNotFoundEntry none ∧
    runToolCalls none [] [ToolCall.bare] =
      [] ++ [ToolCall.bare].map (processToolCall none) :=
  ⟨(claim_C5_lookup_miss none ToolCall.bare rfl).1,
    (claim_C5_lookup_miss none ToolCall.bare rfl).2 [] [ToolCall.bare]⟩

/-- Claim C6: textual tool arguments are decoded to a structured mapping
before invocation, a decode failure silently becoming the empty mapping
(decoding is total, so the failure never propagates); in particular the
spec's two examples decode as stated. -/
theorem claim_C6_textual_arguments :
    (∀ s m, jsonLoadsObj s = some m → decodeArgs (ToolArgs.text s) = m) ∧
    (∀ s, jsonLoadsObj s = none → decodeArgs (ToolArgs.text s) = []) ∧
    decodeArgs (ToolArgs.text "\x7b\"a\": 1, \"b\": 2\x7d") =
      [("a", JVal.jnum 1), ("b", JVal.jnum 2)] ∧
    decodeArgs (ToolArgs.text "not json") = [] := by
  refine ⟨?_, ?_, by decide, by decide⟩
  · intro s m h; simp [decodeArgs, h]
  · intro s h; simp [decodeArgs, h]

/-- Claim C6 witness: the empty-object text decodes to the empty mapping. -/
theorem claim_C6_textual_arguments_witness :
    decodeArgs (ToolArgs.text "\x7b\x7d") = [] :=
  claim_C6_textual_arguments.1 "\x7b\x7d" [] rfl

/-- Lookup-equal dicts are equally empty. -/
theorem dictGet_ext_isEmpty {α : Type} (a b : List (String × α))
    (h : ∀ k, dictGet a k = dictGet b k) : a.isEmpty = b.isEmpty := by
  cases a with
  | nil =>
      cases b with
      | nil => rfl
      | cons q s =>
          have hq := h q.1
          simp [dictGet] at hq
  | cons p r =>
      cases b with
      | nil =>
          have hp := h p.1
          simp [dictGet] at hp
      | cons q s => rfl

/-- Lookup-equal registries resolve every name identically. -/
theorem registryGet_ext (a b : Registry) (h : ∀ k, dictGet a k = dictGet b k) :
    ∀ nm, registryGet (some a) nm = registryGet (some b) nm := by
  intro nm
  simp only [registryGet]
  rw [dictGet_ext_isEmpty a b h]
  cases b.isEmpty with
  | true => simp
  | false =>
      cases nm with
      | none => simp
      | some n => simp [h n]

/-- Claim C7: an explicit name-to-callable mapping, when supplied, is used
as-is (descriptor-name inference is skipped entirely); and a registry built
by descriptor-name inference whose lookups coincide with an explicit
mapping's produces identical lookup and resolution behaviour for every
requested tool call. -/
theorem claim_C7_registration_roundtrip :
    (∀ (m : Registry) (tools : Option (List Tool)),
      effectiveToolMap (some m) tools = some m) ∧
    ∀ (m : Registry) (ts : List Tool),
      (∀ k, dictGet m k = dictGet (buildToolMap ts) k) →
      (∀ nm, registryGet (some m) nm = registryGet (some (buildToolMap ts)) nm) ∧
      ∀ tc, processToolCall (some m) tc = processToolCall (some (buildToolMap ts)) tc := by
  refine ⟨fun m tools => rfl, fun m ts h => ⟨registryGet_ext m (buildToolMap ts) h, ?_⟩⟩
  intro tc
  unfold processToolCall
  rw [registryGet_ext m (buildToolMap ts) h]

/-- Claim C7 witness: the singleton explicit mapping for `boom` and the
registry inferred from the descriptor list resolve the `boom` call alike. -/
theorem claim_C7_registration_roundtrip_witness :
    effectiveToolMap (some [("boom", boomTool)]) (some [boomTool]) =
      some [("boom", boomTool)] ∧
    processToolCall (some [("boom", boomTool)]) boomCall =
      processToolCall (some (buildToolMap [boomTool])) boomCall :=
  ⟨claim_C7_registration_roundtrip.1 [("boom", boomTool)] (some [boomTool]),
    (claim_C7_registration_roundtrip.2 [("boom", boomTool)] [boomTool]
      (fun _ => rfl)).2 boomCall⟩

/-- When the next backend response carries no tool calls, the iteration
returns immediately with that response, the one appended entry and the one
recorded invocation. -/
theorem chatLoop_first_no_tools (ctx : Ctx) (fuel : Nat) (msgs : List Msg)
    (last : Option Response) (trace : List BackendCall)
    (h : msgToolCallsAttr ((ctx.client ⟨ctx.model, ctx.tools, msgs, ctx.options, ctx.chat_kwargs⟩).message) = []) :
    chatLoop ctx (fuel + 1) msgs last trace =
      (some (ctx.client ⟨ctx.model, ctx.tools, msgs, ctx.options, ctx.chat_kwargs⟩),
        msgs ++ [toMsgDict ((ctx.client ⟨ctx.model, ctx.tools, msgs, ctx.options, ctx.chat_kwargs⟩).message)],
        trace ++ [⟨ctx.model, ctx.tools, msgs, ctx.options, ctx.chat_kwargs⟩]) := by
  rw [chatLoop_succ, h]
  simp

/-- Claim C2: one driver invocation performs at most `max_turns` backend
invocations; and when the first backend response carries no tool-call
requests, exactly one invocation occurs, the transcript grows by exactly the
normalized assistant message, and the pair (last response, transcript) is
returned immediately. -/
theorem claim_C2_turn_budget (client : Backend) (msgs : List Msg)
    (options : Option Kwargs) (kwargs : Kwargs) (mv : KwVal)
    (hm : getModelKw kwargs = some mv) :
    (ollama_automatic_function_calling (ClientVal.fn client) msgs options kwargs).trace.length ≤
      (getMaxTurns kwargs).toNat ∧
    (0 < (getMaxTurns kwargs).toNat →
      msgToolCallsAttr ((client ⟨mv, getToolsKw kwargs, msgs, options, chatKwargsOf kwargs⟩).message) = [] →
      (ollama_automatic_function_calling (ClientVal.fn client) msgs options kwargs).trace.length = 1 ∧
      (ollama_automatic_function_calling (ClientVal.fn client) msgs options kwargs).result =
        Except.ok (some (client ⟨mv, getToolsKw kwargs, msgs, options, chatKwargsOf kwargs⟩),
          msgs ++ [toMsgDict ((client ⟨mv, getToolsKw kwargs, msgs, options, chatKwargsOf kwargs⟩).message)])) := by
  rw [run_fn_eq client msgs options kwargs mv hm]
  constructor
  · have := chatLoop_trace_length_le (mkCtx client mv options kwargs)
      (getMaxTurns kwargs).toNat msgs none []
    simpa [loopOutput] using this
  · intro hpos hempty
    obtain ⟨k, hk⟩ : ∃ k, (getMaxTurns kwargs).toNat = k + 1 :=
      ⟨(getMaxTurns kwargs).toNat - 1, by omega⟩
    rw [hk]
    have hstep := chatLoop_first_no_tools (mkCtx client mv options kwargs) k msgs none [] hempty
    constructor
    · simp only [loopOutput, hstep]
      rfl
    · simp only [loopOutput, hstep]
      rfl

/-- Claim C2 witness: with the default budget and a first response without
tool calls, exactly one backend invocation occurs and the transcript is the
single normalized assistant message. -/
theorem claim_C2_turn_budget_witness :
    (ollama_automatic_function_calling (ClientVal.fn plainClient) [] none
      [("model", KwVal.vstr "m")]).trace.length = 1 ∧
    (ollama_automatic_function_calling (ClientVal.fn plainClient) [] none
      [("model", KwVal.vstr "m")]).result =
      Except.ok (some ⟨RawMsg.dumpable plainAsstMsg⟩, [plainAsstMsg]) :=
  (claim_C2_turn_budget plainClient [] none [("model", KwVal.vstr "m")]
    (KwVal.vstr "m") rfl).2 (by decide) rfl

/-- Claim C3: for a backend whose every response is an assistant message
requesting exactly one tool call that resolves to nothing in the registry,
the loop runs exactly `max_turns` iterations (one backend invocation each)
and then returns the pair without raising, the transcript past the supplied
entries being `max_turns` (assistant, tool-not-found) pairs in alternation. -/
theorem claim_C3_exhaustion_alternation (client : Backend) (msgs : List Msg)
    (options : Option Kwargs) (kwargs : Kwargs) (mv : KwVal)
    (hm : getModelKw kwargs = some mv)
    (H : ∀ c : BackendCall,
      (toMsgDict ((client c).message)).role = some "assistant" ∧
      ∃ tc, msgToolCallsAttr ((client c).message) = [tc] ∧
        callableOf (registryGet (effectiveToolMap (getToolMapKw kwargs) (getToolsKw kwargs))
          (extractToolCallParts tc).1) = none) :
    (ollama_automatic_function_calling (ClientVal.fn client) msgs options kwargs).trace.length =
      (getMaxTurns kwargs).toNat ∧
    ∃ l t, (ollama_automatic_function_calling (ClientVal.fn client) msgs options kwargs).result =
      Except.ok (l, t) ∧
      ∃ pairs : List (Msg × Msg), t = msgs ++ interleavePairs pairs ∧
        pairs.length = (getMaxTurns kwargs).toNat ∧
        ∀ p ∈ pairs, p.1.role = some "assistant" ∧
          ∃ nm, p.2 = toolNotFoundEntry nm := by
  rw [run_fn_eq client msgs options kwargs mv hm]
  obtain ⟨hlen, pairs, hmsgs, hplen, hpcls⟩ :=
    chatLoop_allMiss (mkCtx client mv options kwargs) H
      (getMaxTurns kwargs).toNat msgs none []
  refine ⟨by simpa [loopOutput] using hlen, _, _, rfl, pairs, hmsgs, hplen, hpcls⟩

/-- Claim C3 witness: with a one-turn budget and a backend always requesting
the unresolvable call, the loop runs its single turn and the transcript is
one (assistant, tool-not-found) pair. -/
theorem claim_C3_exhaustion_alternation_witness :
    (ollama_automatic_function_calling (ClientVal.fn missClient) [] none
      [("model", KwVal.vstr "m"), ("max_turns", KwVal.vint 1)]).trace.length = 1 ∧
    ∃ l t, (ollama_automatic_function_calling (ClientVal.fn missClient) [] none
      [("model", KwVal.vstr "m"), ("max_turns", KwVal.vint 1)]).result =
      Except.ok (l, t) ∧
      ∃ pairs : List (Msg × Msg), t = [] ++ interleavePairs pairs ∧
        pairs.length = 1 ∧
        ∀ p ∈ pairs, p.1.role = some "assistant" ∧
          ∃ nm, p.2 = toolNotFoundEntry nm :=
  claim_C3_exhaustion_alternation missClient [] none
    [("model", KwVal.vstr "m"), ("max_turns", KwVal.vint 1)] (KwVal.vstr "m") rfl
    (fun _ => ⟨rfl, missCall, rfl, rfl⟩)

/-- Claim C4 counterexample: with the model identifier present but empty, the
driver does not raise — it proceeds to invoke the backend (one recorded
invocation) — contradicting the claim that an empty model identifier raises
a configuration error before any backend invocation. -/
theorem claim_C4_config_errors_counterexample :
    (ollama_automatic_function_calling (ClientVal.fn plainClient) [] none
      [("model", KwVal.vstr "")]).isErr = false ∧
    (ollama_automatic_function_calling (ClientVal.fn plainClient) [] none
      [("model", KwVal.vstr "")]).trace.length = 1 :=
  ⟨rfl, rfl⟩

/-- Claim C4 (amended): the driver raises exactly when the model keyword is
absent (or bound to `None`) or the backend is not invocable, and it does so
before any backend invocation; for every other input (with a backend meeting
its contract) the function returns normally. -/
theorem claim_C4_config_errors (client_fn : ClientVal) (msgs : List Msg)
    (options : Option Kwargs) (kwargs : Kwargs) :
    ((ollama_automatic_function_calling client_fn msgs options kwargs).isErr = true ↔
      (getModelKw kwargs = none ∨ client_fn = ClientVal.notCallable)) ∧
    ((ollama_automatic_function_calling client_fn msgs options kwargs).isErr = true →
      (ollama_automatic_function_calling client_fn msgs options kwargs).trace = []) := by
  cases hk : getModelKw kwargs with
  | none =>
      constructor
      · simp [ollama_automatic_function_calling, hk, RunOutput.isErr]
      · intro _
        simp [ollama_automatic_function_calling, hk]
  | some mv =>
      cases client_fn with
      | notCallable =>
          constructor
          · simp [ollama_automatic_function_calling, hk, RunOutput.isErr]
          · intro _
            simp [ollama_automatic_function_calling, hk]
      | fn client =>
          constructor
          · simp [ollama_automatic_function_calling, hk, RunOutput.isErr, loopOutput]
          · intro habs
            rw [run_fn_eq client msgs options kwargs mv hk] at habs
            simp [loopOutput, RunOutput.isErr] at habs

/-- Claim C4 witness: a non-invocable backend raises with no backend
invocation recorded. -/
theorem claim_C4_config_errors_witness :
    ((ollama_automatic_function_calling ClientVal.notCallable [] none
      [("model", KwVal.vstr "m")]).isErr = true ↔
      (getModelKw [("model", KwVal.vstr "m")] = none ∨
        (ClientVal.notCallable : ClientVal) = ClientVal.notCallable)) ∧
    ((ollama_automatic_function_calling ClientVal.notCallable [] none
      [("model", KwVal.vstr "m")]).isErr = true →
      (ollama_automatic_function_calling ClientVal.notCallable [] none
        [("model", KwVal.vstr "m")]).trace = []) :=
  claim_C4_config_errors ClientVal.notCallable [] none [("model", KwVal.vstr "m")]

/-- Claim C8: the extra keyword parameters are exactly the caller-supplied
named parameters whose names are not reserved, and every backend invocation
of a run forwards exactly that mapping, unchanged. -/
theorem claim_C8_kwarg_forwarding (client : Backend) (msgs : List Msg)
    (options : Option Kwargs) (kwargs : Kwargs) :
    (∀ kv, kv ∈ chatKwargsOf kwargs ↔ kv ∈ kwargs ∧ kv.1 ∉ reservedNames) ∧
    ∀ c ∈ (ollama_automatic_function_calling (ClientVal.fn client) msgs options kwargs).trace,
      c.extra = chatKwargsOf kwargs := by
  constructor
  · intro kv
    simp [chatKwargsOf, List.mem_filter]
  · cases hk : getModelKw kwargs with
    | none =>
        intro c hc
        simp [ollama_automatic_function_calling, hk] at hc
    | some mv =>
        rw [run_fn_eq client msgs options kwargs mv hk]
        intro c hc
        exact chatLoop_extra (mkCtx client mv options kwargs)
          (getMaxTurns kwargs).toNat msgs none [] (by simp) c hc

/-- Claim C8 witness: the non-reserved parameter `think` is forwarded while
the reserved `model` is consumed. -/
theorem claim_C8_kwarg_forwarding_witness :
    ("think", KwVal.vstr "low") ∈
      chatKwargsOf [("model", KwVal.vstr "m"), ("think", KwVal.vstr "low")] :=
  ((claim_C8_kwarg_forwarding plainClient [] none
      [("model", KwVal.vstr "m"), ("think", KwVal.vstr "low")]).1
    ("think", KwVal.vstr "low")).mpr
    ⟨List.Mem.tail _ (List.Mem.head _), by decide⟩

/-- Claim C9: over one run the transcript is append-only — the returned
transcript extends the supplied entries, unchanged and in order — and, for a
backend whose normalized messages are assistant entries, every appended entry
has its role set, tool-role entries always carrying a `tool_name`. -/
theorem claim_C9_transcript_append_only (client : Backend) (msgs : List Msg)
    (options : Option Kwargs) (kwargs : Kwargs)
    (Hrole : ∀ c : BackendCall, (toMsgDict ((client c).message)).role = some "assistant") :
    ∀ l t, (ollama_automatic_function_calling (ClientVal.fn client) msgs options kwargs).result =
        Except.ok (l, t) →
      ∃ new, t = msgs ++ new ∧
        ∀ m ∈ new, m.role.isSome = true ∧
          (m.role = some "tool" → m.tool_name.isSome = true) := by
  intro l t hres
  cases hk : getModelKw kwargs with
  | none =>
      rw [ollama_automatic_function_calling] at hres
      simp [hk] at hres
  | some mv =>
      rw [run_fn_eq client msgs options kwargs mv hk] at hres
      obtain ⟨new, hnew, hcls⟩ := chatLoop_appended (mkCtx client mv options kwargs)
        (getMaxTurns kwargs).toNat msgs none []
      simp only [mkCtx] at hcls
      simp only [loopOutput, Except.ok.injEq, Prod.mk.injEq] at hres
      refine ⟨new, by rw [← hres.2, hnew], ?_⟩
      intro m hm
      rcases hcls m hm with ⟨c, rfl⟩ | ⟨tc, rfl⟩
      · rw [Hrole c]
        refine ⟨rfl, ?_⟩
        intro habs
        simp at habs
      · obtain ⟨h1, h2⟩ := processToolCall_fields
          (effectiveToolMap (getToolMapKw kwargs) (getToolsKw kwargs)) tc
        exact ⟨by rw [h1]; rfl, fun _ => h2⟩

/-- Claim C9 witness: a single-turn run extends the empty transcript by the
assistant entry alone. -/
theorem claim_C9_transcript_append_only_witness :
    ∃ new, [plainAsstMsg] = [] ++ new ∧
      ∀ m ∈ new, m.role.isSome = true ∧
        (m.role = some "tool" → m.tool_name.isSome = true) :=
  claim_C9_transcript_append_only plainClient [] none [("model", KwVal.vstr "m")]
    (fun _ => rfl) (some ⟨RawMsg.dumpable plainAsstMsg⟩) [plainAsstMsg] rfl

/-- Claim C10: with a zero or negative `max_turns` (and a valid
configuration) no backend invocation occurs, the transcript is returned
unchanged, and the first component of the returned pair is `None` rather
than a response object. -/
theorem claim_C10_nonpositive_budget (client : Backend) (msgs : List Msg)
    (options : Option Kwargs) (kwargs : Kwargs) (mv : KwVal)
    (hm : getModelKw kwargs = some mv) (hn : getMaxTurns kwargs ≤ 0) :
    ollama_automatic_function_calling (ClientVal.fn client) msgs options kwargs =
      ⟨Except.ok (none, msgs), []⟩ := by
  rw [run_fn_eq client msgs options kwargs mv hm]
  have h0 : (getMaxTurns kwargs).toNat = 0 := Int.toNat_of_nonpos hn
  rw [h0]
  rfl

/-- Claim C10 witness: `max_turns = 0` returns `(None, unchanged transcript)`
with no backend invocation recorded. -/
theorem claim_C10_nonpositive_budget_witness :
    ollama_automatic_function_calling (ClientVal.fn plainClient) [] none
      [("model", KwVal.vstr "m"), ("max_turns", KwVal.vint 0)] =
      ⟨Except.ok (none, []), []⟩ :=
  claim_C10_nonpositive_budget plainClient [] none
    [("model", KwVal.vstr "m"), ("max_turns", KwVal.vint 0)] (KwVal.vstr "m")
    rfl (by decide)
